import Mathlib

/-!
Shallow embedding of `src/esdm_monitor.py` (ESDM press-release monitor).

The embedding keeps the Python function names where possible:
`is_processed`, `mark_processed`, `translate_title`, `send_dingtalk`,
`run_monitor`.  External effects (HTTP fetches, the LLM call, the DingTalk
POST, wall-clock time) are modelled as explicit environment parameters; the
sqlite `news` table is modelled as a list of records, with `INSERT OR IGNORE`
modelled by `mark_processed` inserting only when the key is absent.
-/

/-- Python `str.lower()` restricted to ASCII letters (all inputs used by the
claims are ASCII). -/
def lowerStr (s : String) : String := String.mk (s.data.map Char.toLower)

/-- Python `needle in hay` substring containment, on the character lists. -/
def substrAux (needle : List Char) : List Char → Bool
  | [] => needle.isEmpty
  | c :: cs => needle.isPrefixOf (c :: cs) || substrAux needle cs

/-- Python `needle in hay` for strings (contiguous substring test). -/
def substrOf (needle hay : String) : Bool := substrAux needle.data hay.data

/-- Python `s.startswith(p)`, on the character lists (kernel-reducible). -/
def strStartsWith (s p : String) : Bool := p.data.isPrefixOf s.data

/-- Python `\s` for the ASCII whitespace characters (`re` module, the cases
relevant to the inputs in scope). -/
def isPySpace (c : Char) : Bool :=
  c == ' ' || c == '\t' || c == '\n' || c == '\r' || c == '\x0b' || c == '\x0c'

/-- Python `str.strip()` on a character list: drop leading and trailing
whitespace. -/
def pyStrip (cs : List Char) : List Char :=
  ((cs.dropWhile isPySpace).reverse.dropWhile isPySpace).reverse

/-- The lower-cased regex label `Tanggal` (matched case-insensitively). -/
def tanggalLabel : List Char := ['t', 'a', 'n', 'g', 'g', 'a', 'l']

/-- Attempt of the regex from line 226 of `esdm_monitor.py`,
`Tanggal\s*[:]\s*(.*?)(\n|\r|$)` with `re.IGNORECASE`, anchored at the head of
the character list: the 7-character label case-insensitively, then greedy
whitespace, a colon, greedy whitespace, and group 1 is the lazy capture, which
runs until the first LF or CR or the end of input (regex `.` matches neither
LF nor CR). Returns the capture group. -/
def matchTanggalAt (cs : List Char) : Option (List Char) :=
  if (cs.take 7).map Char.toLower = tanggalLabel then
    match (cs.drop 7).dropWhile isPySpace with
    | ':' :: rest =>
        some (((rest.dropWhile isPySpace).takeWhile
          (fun c => !(c == '\n' || c == '\r'))))
    | _ => none
  else none

/-- Python `re.search` for the date pattern: try the match at every position,
leftmost occurrence wins. -/
def searchTanggal : List Char → Option (List Char)
  | [] => none
  | c :: cs =>
    match matchTanggalAt (c :: cs) with
    | some r => some r
    | none => searchTanggal cs

/-- `re.search(r"Tanggal\s*[:]\s*(.*?)(\n|\r|$)", s, re.IGNORECASE)` followed
by `.group(1).strip()`, as used in `run_monitor` (lines 226-236). -/
def findTanggal (s : String) : Option String :=
  (searchTanggal s.data).map (fun cs => String.mk (pyStrip cs))

/-- A fetched detail page, after BeautifulSoup parsing: `textRaw` is
`soup.get_text()`; `ogDesc` is the `content` attribute of the
`og:description` meta tag when that tag exists (the code substitutes `""`
for a missing attribute, modelled by `some ""`). -/
structure Detail where
  textRaw : String
  ogDesc : Option String
deriving DecidableEq

/-- Date extraction of `run_monitor` (lines 217-236): `date_str` starts as
`"Unknown"`; the plain-text regex search wins if it matches, else the same
pattern is applied to the `og:description` content if that meta tag exists. -/
def extractDate (d : Detail) : String :=
  match findTanggal d.textRaw with
  | some s => s
  | none =>
    match d.ogDesc with
    | some content =>
      match findTanggal content with
      | some s => s
      | none => "Unknown"
    | none => "Unknown"

/-- Two-phase keyword match of `run_monitor` (lines 203-243): phase 1 filters
the configured (already lower-cased) keywords against the lower-cased title;
phase 2 runs only when phase 1 produced nothing and filters against the
lower-cased body text. `List.filter` preserves keyword-configuration order. -/
def keywordMatch (kws : List String) (title body : String) : List String :=
  let m := kws.filter (fun k => substrOf k (lowerStr title))
  if m.isEmpty then kws.filter (fun k => substrOf k (lowerStr body)) else m

/-- Keyword loading (line 27): `[k.lower() for k in config keywords]`. -/
def loadKeywords (raw : List String) : List String := raw.map lowerStr

/-- A hyperlink of the listing page: `href` attribute and
`get_text(strip=True)` visible text. -/
structure Link where
  href : String
  text : String
deriving DecidableEq

/-- Candidate filter of `run_monitor` (line 188):
`"arsip-berita" in href and len(title) > 10`. -/
def qualifies (l : Link) : Bool :=
  substrOf "arsip-berita" l.href && decide (l.text.length > 10)

/-- Relative URL resolution of `run_monitor` (lines 190-193): an href starting
with `/` is prefixed with the fixed site origin, any other href passes
through unchanged. -/
def resolveUrl (href : String) : String :=
  if strStartsWith href "/" then "https://www.esdm.go.id" ++ href else href

/-- A row of the sqlite `news` table (`processed_at` is wall-clock noise and
is not modelled). -/
structure SeenRecord where
  url : String
  title : String
  published_date : String
deriving DecidableEq

/-- `is_processed` (lines 47-53): membership test on the primary key `url`. -/
def is_processed (db : List SeenRecord) (url : String) : Bool :=
  db.any (fun r => r.url == url)

/-- `mark_processed` (lines 55-61): `INSERT OR IGNORE`, a row is appended only
when no row with the same `url` key exists. -/
def mark_processed (db : List SeenRecord) (url title published_date : String) :
    List SeenRecord :=
  if is_processed db url then db else db ++ [⟨url, title, published_date⟩]

/-- One DingTalk notification dispatched by `run_monitor` (line 252). -/
structure Alert where
  titleCn : String
  titleOriginal : String
  matched : List String
  date : String
  url : String
deriving DecidableEq

/-- Environment of one `run_monitor` invocation: the loaded keyword list, the
listing fetch result (`none` models `fetch_url` returning falsy), the detail
fetch-and-parse oracle per resolved URL, and the translation collaborator. -/
structure RunEnv where
  keywords : List String
  listing : Option (List Link)
  detail : String → Option Detail
  translate : String → String

/-- Mutable state threaded through the candidate loop of `run_monitor`:
`found` is the in-run dedup set `found_links` (insertion order kept), `db` is
the seen-set table, `notes` are the notifications sent so far. -/
structure RunState where
  found : List String
  db : List SeenRecord
  notes : List Alert

/-- Body text used by phase-2 matching (lines 216-239): the raw page text when
the detail fetch succeeds, `""` when it fails. -/
def detailBody (env : RunEnv) (u : String) : String :=
  match env.detail u with
  | some d => d.textRaw
  | none => ""

/-- Date recorded for a candidate (lines 217-236): extracted from the detail
page when fetched, `"Unknown"` when the fetch fails. -/
def detailDate (env : RunEnv) (u : String) : String :=
  match env.detail u with
  | some d => extractDate d
  | none => "Unknown"

/-- Processing of one new (not-yet-seen) candidate (lines 203-260): fetch the
detail page, run the two-phase keyword match, notify on a hit, and in either
branch record the row via `mark_processed`. -/
def classifyNew (env : RunEnv) (st : RunState) (u t : String) : RunState :=
  let matched := keywordMatch env.keywords t (detailBody env u)
  if matched.isEmpty then
    ⟨st.found ++ [u], mark_processed st.db u t (detailDate env u), st.notes⟩
  else
    ⟨st.found ++ [u], mark_processed st.db u t (detailDate env u),
      st.notes ++ [⟨env.translate t, t, matched, detailDate env u, u⟩]⟩

/-- One iteration of the link loop of `run_monitor` (lines 184-260):
qualification filter, URL resolution, in-run dedup (`continue` before the
add), seen-set skip, then classification of the new candidate. -/
def processLink (env : RunEnv) (st : RunState) (l : Link) : RunState :=
  if qualifies l then
    let fullUrl := resolveUrl l.href
    if st.found.contains fullUrl then st
    else if is_processed st.db fullUrl then
      ⟨st.found ++ [fullUrl], st.db, st.notes⟩
    else classifyNew env st fullUrl l.text
  else st

/-- The candidate loop of `run_monitor` over the parsed listing links,
started with an empty `found_links` set. -/
def runListing (env : RunEnv) (db : List SeenRecord) (links : List Link) :
    RunState :=
  links.foldl (processLink env) ⟨[], db, []⟩

/-- `run_monitor` (lines 166-260) as a state transformer: when the listing
fetch returns nothing the run ends at line 170 with the seen-set untouched
and no notifications; otherwise the candidate loop runs to completion.
Returns the final seen-set and the notifications sent. -/
def run_monitor (env : RunEnv) (db : List SeenRecord) :
    List SeenRecord × List Alert :=
  match env.listing with
  | none => (db, [])
  | some links => ((runListing env db links).db, (runListing env db links).notes)

/-- A sequence of `run_monitor` invocations (the scheduler's lifetime),
chaining the seen-set and concatenating all notifications. -/
def runAll (envs : List RunEnv) (db : List SeenRecord) :
    List SeenRecord × List Alert :=
  match envs with
  | [] => (db, [])
  | e :: es =>
    let r := run_monitor e db
    let rest := runAll es r.1
    (rest.1, r.2 ++ rest.2)

/-- First-occurrence-wins deduplication, the behaviour of the `found_links`
set built incrementally in document order. -/
def firstWins (seen : List String) : List String → List String
  | [] => []
  | u :: us =>
    if seen.contains u then firstWins seen us
    else u :: firstWins (seen ++ [u]) us

/-- Environment of `translate_title` (lines 85-107): the configured API key
(Python falsiness: `none` or `some ""` both count as unconfigured) and the
outcome of the chat-completion request (`some t` = HTTP 200 with stripped
content `t`; `none` = transport error or non-200 status). -/
structure TranslateEnv where
  apiKey : Option String
  response : Option String

/-- `translate_title` (lines 85-107): without a credential the input comes
back with the literal marker of line 87 appended; with a credential, a
successful request yields the response content and any failure falls through
to `return text` (line 107). -/
def translate_title (env : TranslateEnv) (text : String) : String :=
  match env.apiKey with
  | none => text ++ " (未配置翻译)"
  | some k =>
    if k = "" then text ++ " (未配置翻译)"
    else
      match env.response with
      | some t => t
      | none => text

/-- Base64 alphabet. -/
def b64Alphabet : List Char :=
  "ABCDEFGHIJKLMNOPQRSTUVWXYZabcdefghijklmnopqrstuvwxyz0123456789+/".data

/-- Base64 digit for a 6-bit group. -/
def b64Char (n : Nat) : Char := b64Alphabet.getD (n % 64) 'A'

/-- Standard base64 of a byte list (each byte reduced mod 256), with `=`
padding. -/
def b64encodeList : List Nat → List Char
  | [] => []
  | [a] =>
    [b64Char ((a % 256) / 4), b64Char ((a % 4) * 16), '=', '=']
  | [a, b] =>
    [b64Char ((a % 256) / 4), b64Char ((a % 4) * 16 + (b % 256) / 16),
      b64Char ((b % 16) * 4), '=']
  | a :: b :: c :: rest =>
    b64Char ((a % 256) / 4) :: b64Char ((a % 4) * 16 + (b % 256) / 16) ::
      b64Char ((b % 16) * 4 + (c % 256) / 64) :: b64Char (c % 64) ::
        b64encodeList rest

/-- `base64.b64encode` producing a string. -/
def b64encode (bytes : List Nat) : String := String.mk (b64encodeList bytes)

/-- Uppercase hexadecimal digit. -/
def hexDigit (n : Nat) : Char := "0123456789ABCDEF".data.getD (n % 16) '0'

/-- UTF-8 bytes of one character. -/
def utf8BytesOfChar (c : Char) : List Nat :=
  let n := c.toNat
  if n < 128 then [n]
  else if n < 2048 then [192 + n / 64, 128 + n % 64]
  else if n < 65536 then [224 + n / 4096, 128 + (n / 64) % 64, 128 + n % 64]
  else [240 + n / 262144, 128 + (n / 4096) % 64, 128 + (n / 64) % 64,
    128 + n % 64]

/-- Percent-escape of one byte, uppercase hex. -/
def pctEncodeByte (n : Nat) : List Char := ['%', hexDigit (n / 16), hexDigit (n % 16)]

/-- Characters `urllib.parse.quote` never escapes: ASCII letters, digits,
`_`, `.`, `-`, `~`. -/
def isUrlSafe (c : Char) : Bool :=
  (decide ('a' ≤ c) && decide (c ≤ 'z')) ||
  (decide ('A' ≤ c) && decide (c ≤ 'Z')) ||
  (decide ('0' ≤ c) && decide (c ≤ '9')) ||
  c == '_' || c == '.' || c == '-' || c == '~'

/-- `urllib.parse.quote_plus` on one character. -/
def quotePlusChar (c : Char) : List Char :=
  if c == ' ' then ['+']
  else if isUrlSafe c then [c]
  else (utf8BytesOfChar c).flatMap pctEncodeByte

/-- `urllib.parse.quote_plus` (line 128). -/
def quotePlus (s : String) : String := String.mk (s.data.flatMap quotePlusChar)

/-- Environment of `send_dingtalk` (lines 110-163): configured webhook URL and
secret (Python falsiness again: `none` or `some ""` both disable the secret
branch), the millisecond timestamp of line 123, and the HMAC-SHA256 primitive
as an oracle taking the UTF-8 key string and message string to digest
bytes. -/
structure DingEnv where
  webhook : Option String
  secret : Option String
  timestampMillis : Nat
  hmacSha256 : String → String → List Nat

/-- The markdown body built at lines 135-142, with the forced-keyword suffix
inserted on its own trailing line. -/
def dingContent (titleCn titleOriginal : String) (matched : List String)
    (date url forcedKeyword : String) : String :=
  "**【印尼能矿部政策预警】**\n- **中文标题**: " ++ titleCn ++
  "\n- **原文标题**: " ++ titleOriginal ++
  "\n- **关键词**: " ++ String.intercalate ", " matched ++
  "\n- **发布时间**: " ++ date ++
  "\n- **详情链接**: [点击跳转](" ++ url ++ ")\n" ++ forcedKeyword ++ "\n"

/-- The signed query-parameter value of lines 123-128: HMAC-SHA256 over the
string `timestampMillis`, newline, `secret`, keyed by the secret,
base64-encoded and URL-escaped. -/
def dingSign (env : DingEnv) (s : String) : String :=
  quotePlus (b64encode
    (env.hmacSha256 s (toString env.timestampMillis ++ "\n" ++ s)))

/-- `send_dingtalk` (lines 110-163), modelled up to the POST: returns the
webhook URL and markdown body actually posted, or `none` when no webhook is
configured. A secret starting with `SEC` yields signed `timestamp`/`sign`
query parameters; any other non-empty secret is appended to the body as a
visible keyword line and the URL is left unchanged. -/
def send_dingtalk (env : DingEnv) (titleCn titleOriginal : String)
    (matched : List String) (date url : String) : Option (String × String) :=
  match env.webhook with
  | none => none
  | some w =>
    let active : Option String :=
      match env.secret with
      | none => none
      | some s => if s = "" then none else some s
    let pair : String × String :=
      match active with
      | none => (w, "")
      | some s =>
        if strStartsWith s "SEC" then
          (w ++ "&timestamp=" ++ toString env.timestampMillis ++
            "&sign=" ++ dingSign env s, "")
        else (w, "\n\n(Keyword: " ++ s ++ ")")
    some (pair.1, dingContent titleCn titleOriginal matched date url pair.2)

/-- Concrete run environment used by witnesses: one qualifying link whose
title matches a keyword and one qualifying link that matches nothing, detail
fetches fail, identity translator. -/
def witnessEnv : RunEnv where
  keywords := loadKeywords ["RKAB", "nikel"]
  listing := some
    [⟨"/id/media-center/arsip-berita/123", "Kebijakan NIKEL Baru"⟩,
     ⟨"/id/media-center/arsip-berita/456", "Pengumuman lelang umum"⟩]
  detail := fun _ => none
  translate := fun t => t

/-- Concrete run environment whose listing fetch failed. -/
def witnessEnvNone : RunEnv where
  keywords := loadKeywords ["rkab"]
  listing := none
  detail := fun _ => none
  translate := fun t => t

/-- Concrete run environment with two links resolving to the same URL. -/
def witnessEnvDup : RunEnv where
  keywords := []
  listing := some
    [⟨"/id/media-center/arsip-berita/123", "Judul berita panjang"⟩,
     ⟨"https://www.esdm.go.id/id/media-center/arsip-berita/123",
      "Judul lain panjang!"⟩]
  detail := fun _ => none
  translate := fun t => t

/-- Concrete notification environment with a signing-style secret. -/
def witnessDingEnv : DingEnv where
  webhook := some "https://oapi.dingtalk.com/robot/send?access_token=tkn"
  secret := some "SECxxxx"
  timestampMillis := 1700000000000
  hmacSha256 := fun _ _ => [171, 205]

/-- Concrete notification environment with a plain-keyword secret. -/
def witnessDingEnvKw : DingEnv where
  webhook := some "https://oapi.dingtalk.com/robot/send?access_token=tkn"
  secret := some "projectX"
  timestampMillis := 1700000000000
  hmacSha256 := fun _ _ => [171, 205]

/-! ### Helper lemmas -/

lemma contains_iff_mem (l : List String) (a : String) :
    l.contains a = true ↔ a ∈ l :=
  ⟨fun h => List.mem_of_elem_eq_true h, fun h => List.elem_eq_true_of_mem h⟩

lemma processed_iff_mem (db : List SeenRecord) (u : String) :
    is_processed db u = true ↔ u ∈ db.map SeenRecord.url := by
  simp [is_processed, List.any_eq_true, List.mem_map]

lemma is_processed_append (db : List SeenRecord) (r : SeenRecord) (u : String) :
    is_processed (db ++ [r]) u = (is_processed db u || (r.url == u)) := by
  simp [is_processed, List.any_append]

lemma is_processed_mark_self (db : List SeenRecord) (u t d : String) :
    is_processed (mark_processed db u t d) u = true := by
  unfold mark_processed
  split
  · next h => exact h
  · rw [is_processed_append]
    simp

lemma is_processed_mark_mono {db : List SeenRecord} {v : String} (u t d : String)
    (h : is_processed db v = true) :
    is_processed (mark_processed db u t d) v = true := by
  unfold mark_processed
  split
  · exact h
  · rw [is_processed_append, h]
    rfl

lemma mark_processed_nodup {db : List SeenRecord} (u t d : String)
    (h : (db.map SeenRecord.url).Nodup) :
    ((mark_processed db u t d).map SeenRecord.url).Nodup := by
  unfold mark_processed
  split
  · exact h
  · next hp =>
    rw [List.map_append, List.nodup_append]
    refine ⟨h, by simp, ?_⟩
    intro v hv hvu
    simp at hvu
    subst hvu
    exact hp ((processed_iff_mem db v).mpr hv)

lemma classifyNew_found (env : RunEnv) (st : RunState) (u t : String) :
    (classifyNew env st u t).found = st.found ++ [u] := by
  simp only [classifyNew]
  split <;> rfl

lemma classifyNew_db (env : RunEnv) (st : RunState) (u t : String) :
    (classifyNew env st u t).db = mark_processed st.db u t (detailDate env u) := by
  simp only [classifyNew]
  split <;> rfl

lemma classifyNew_notes (env : RunEnv) (st : RunState) (u t : String) :
    (classifyNew env st u t).notes = st.notes ∨
      (classifyNew env st u t).notes = st.notes ++
        [⟨env.translate t, t, keywordMatch env.keywords t (detailBody env u),
          detailDate env u, u⟩] := by
  simp only [classifyNew]
  split
  · exact Or.inl rfl
  · exact Or.inr rfl

lemma processLink_eq (env : RunEnv) (st : RunState) (l : Link) :
    processLink env st l =
      if qualifies l then
        if st.found.contains (resolveUrl l.href) then st
        else if is_processed st.db (resolveUrl l.href) then
          ⟨st.found ++ [resolveUrl l.href], st.db, st.notes⟩
        else classifyNew env st (resolveUrl l.href) l.text
      else st := rfl

/-- In-run invariant: every URL in the `found_links` set is already recorded
in the seen-set (either it was seen before, or its candidate was just
classified and persisted). -/
def FoundSeen (st : RunState) : Prop :=
  ∀ u : String, st.found.contains u = true → is_processed st.db u = true

lemma processLink_db_mono (env : RunEnv) (st : RunState) (l : Link) (v : String)
    (h : is_processed st.db v = true) :
    is_processed (processLink env st l).db v = true := by
  rw [processLink_eq]
  split
  · split
    · exact h
    · split
      · exact h
      · rw [classifyNew_db]
        exact is_processed_mark_mono _ _ _ h
  · exact h

lemma foldl_db_mono (env : RunEnv) (links : List Link) (st : RunState)
    (v : String) (h : is_processed st.db v = true) :
    is_processed ((links.foldl (processLink env) st).db) v = true := by
  induction links generalizing st with
  | nil => exact h
  | cons l ls ih => exact ih _ (processLink_db_mono env st l v h)

lemma foundSeen_processLink (env : RunEnv) (st : RunState) (l : Link)
    (h : FoundSeen st) : FoundSeen (processLink env st l) := by
  rw [processLink_eq]
  split
  · split
    · exact h
    · split
      · next hp =>
        intro u hu
        rcases (contains_iff_mem _ _).mp hu with hu'
        rcases List.mem_append.mp hu' with hl | hr
        · exact h u ((contains_iff_mem _ _).mpr hl)
        · simp at hr
          subst hr
          exact hp
      · next hc hp =>
        intro u hu
        rw [classifyNew_found] at hu
        rw [classifyNew_db]
        rcases List.mem_append.mp ((contains_iff_mem _ _).mp hu) with hl | hr
        · exact is_processed_mark_mono _ _ _ (h u ((contains_iff_mem _ _).mpr hl))
        · simp at hr
          subst hr
          exact is_processed_mark_self _ _ _ _
  · exact h

lemma processLink_self_processed (env : RunEnv) (st : RunState) (l : Link)
    (hq : qualifies l = true) (hinv : FoundSeen st) :
    is_processed (processLink env st l).db (resolveUrl l.href) = true := by
  rw [processLink_eq]
  simp only [hq, if_true]
  split
  · next hc => exact hinv _ hc
  · split
    · next hp => exact hp
    · rw [classifyNew_db]
      exact is_processed_mark_self _ _ _ _

lemma foldl_all_processed (env : RunEnv) (links : List Link) (st : RunState)
    (hinv : FoundSeen st) :
    ∀ l ∈ links, qualifies l = true →
      is_processed ((links.foldl (processLink env) st).db) (resolveUrl l.href)
        = true := by
  induction links generalizing st with
  | nil => intro l hl; cases hl
  | cons l' ls ih =>
    intro l hl hq
    rcases List.mem_cons.mp hl with hl | hl
    · subst hl
      exact foldl_db_mono env ls _ _ (processLink_self_processed env st l hq hinv)
    · exact ih (processLink env st l') (foundSeen_processLink env st l' hinv) l hl hq

lemma foldl_no_new (env : RunEnv) (links : List Link) (st : RunState)
    (h : ∀ l ∈ links, qualifies l = true →
      is_processed st.db (resolveUrl l.href) = true) :
    (links.foldl (processLink env) st).db = st.db ∧
      (links.foldl (processLink env) st).notes = st.notes := by
  induction links generalizing st with
  | nil => exact ⟨rfl, rfl⟩
  | cons l ls ih =>
    have hstep : (processLink env st l).db = st.db ∧
        (processLink env st l).notes = st.notes := by
      rw [processLink_eq]
      split
      · next hq =>
        split
        · exact ⟨rfl, rfl⟩
        · split
          · exact ⟨rfl, rfl⟩
          · next hc hp =>
            exact absurd (h l (List.mem_cons_self l ls) hq) hp
      · exact ⟨rfl, rfl⟩
    have h2 : ∀ l' ∈ ls, qualifies l' = true →
        is_processed ((processLink env st l).db) (resolveUrl l'.href) = true := by
      intro l' hl' hq'
      rw [hstep.1]
      exact h l' (List.mem_cons_of_mem _ hl') hq'
    have hrest := ih (processLink env st l) h2
    rw [List.foldl_cons]
    exact ⟨hrest.1.trans hstep.1, hrest.2.trans hstep.2⟩

/-- Classification/dedup invariant for one run starting from seen-set `db0`:
the seen-set has no duplicate URL rows, the notifications sent so far name
pairwise distinct URLs, the seen-set only grows, and every notified URL is
recorded now but was not recorded when the run started. -/
def GoodRun (db0 : List SeenRecord) (st : RunState) : Prop :=
  (st.db.map SeenRecord.url).Nodup ∧
  (st.notes.map Alert.url).Nodup ∧
  (∀ u, is_processed db0 u = true → is_processed st.db u = true) ∧
  (∀ n ∈ st.notes,
    is_processed st.db n.url = true ∧ is_processed db0 n.url = false)

lemma goodRun_processLink (env : RunEnv) {db0 : List SeenRecord}
    {st : RunState} (l : Link) (h : GoodRun db0 st) :
    GoodRun db0 (processLink env st l) := by
  obtain ⟨h1, h2, h3, h4⟩ := h
  rw [processLink_eq]
  split
  · split
    · exact ⟨h1, h2, h3, h4⟩
    · split
      · exact ⟨h1, h2, h3, h4⟩
      · next hc hp =>
        refine ⟨?_, ?_, ?_, ?_⟩
        · rw [classifyNew_db]
          exact mark_processed_nodup _ _ _ h1
        · rcases classifyNew_notes env st (resolveUrl l.href) l.text with hn | hn
          · rw [hn]; exact h2
          · rw [hn, List.map_append, List.nodup_append]
            refine ⟨h2, by simp, ?_⟩
            intro v hv hvu
            simp at hvu
            subst hvu
            obtain ⟨n, hn', hnu⟩ := List.mem_map.mp hv
            exact hp (hnu ▸ (h4 n hn').1)
        · intro u hu
          rw [classifyNew_db]
          exact is_processed_mark_mono _ _ _ (h3 u hu)
        · intro n hn
          have hdb := classifyNew_db env st (resolveUrl l.href) l.text
          have hfalse : is_processed db0 (resolveUrl l.href) = false := by
            cases hb : is_processed db0 (resolveUrl l.href) with
            | false => rfl
            | true => exact absurd (h3 _ hb) hp
          rcases classifyNew_notes env st (resolveUrl l.href) l.text with hs | hs
          · rw [hs] at hn
            exact ⟨hdb ▸ is_processed_mark_mono _ _ _ (h4 n hn).1, (h4 n hn).2⟩
          · rw [hs] at hn
            rcases List.mem_append.mp hn with hold | hnew
            · exact ⟨hdb ▸ is_processed_mark_mono _ _ _ (h4 n hold).1,
                (h4 n hold).2⟩
            · simp at hnew
              subst hnew
              exact ⟨hdb ▸ is_processed_mark_self _ _ _ _, hfalse⟩
  · exact ⟨h1, h2, h3, h4⟩

lemma goodRun_foldl (env : RunEnv) {db0 : List SeenRecord} (links : List Link)
    {st : RunState} (h : GoodRun db0 st) :
    GoodRun db0 (links.foldl (processLink env) st) := by
  induction links generalizing st with
  | nil => exact h
  | cons l ls ih => exact ih (goodRun_processLink env l h)

lemma run_monitor_good (env : RunEnv) (db0 : List SeenRecord)
    (h : (db0.map SeenRecord.url).Nodup) :
    ((run_monitor env db0).1.map SeenRecord.url).Nodup ∧
    ((run_monitor env db0).2.map Alert.url).Nodup ∧
    (∀ u, is_processed db0 u = true →
      is_processed (run_monitor env db0).1 u = true) ∧
    (∀ n ∈ (run_monitor env db0).2,
      is_processed (run_monitor env db0).1 n.url = true ∧
        is_processed db0 n.url = false) := by
  cases hl : env.listing with
  | none =>
    simp only [run_monitor, hl]
    exact ⟨h, by simp, fun u hu => hu, by simp⟩
  | some links =>
    have hg : GoodRun db0 (runListing env db0 links) := by
      apply goodRun_foldl
      exact ⟨h, by simp, fun u hu => hu,
        fun n hn => absurd hn (List.not_mem_nil n)⟩
    simp only [run_monitor, hl]
    exact ⟨hg.1, hg.2.1, hg.2.2.1, hg.2.2.2⟩

lemma runAll_cons (e : RunEnv) (es : List RunEnv) (db0 : List SeenRecord) :
    runAll (e :: es) db0 =
      ((runAll es (run_monitor e db0).1).1,
        (run_monitor e db0).2 ++ (runAll es (run_monitor e db0).1).2) := rfl

lemma runAll_good (envs : List RunEnv) (db0 : List SeenRecord)
    (h : (db0.map SeenRecord.url).Nodup) :
    ((runAll envs db0).1.map SeenRecord.url).Nodup ∧
    ((runAll envs db0).2.map Alert.url).Nodup ∧
    (∀ u, is_processed db0 u = true →
      is_processed (runAll envs db0).1 u = true) ∧
    (∀ n ∈ (runAll envs db0).2,
      is_processed (runAll envs db0).1 n.url = true ∧
        is_processed db0 n.url = false) := by
  induction envs generalizing db0 with
  | nil =>
    exact ⟨h, by simp [runAll], fun u hu => hu,
      fun n hn => absurd hn (List.not_mem_nil n)⟩
  | cons e es ih =>
    obtain ⟨r1, r2, r3, r4⟩ := run_monitor_good e db0 h
    obtain ⟨i1, i2, i3, i4⟩ := ih (run_monitor e db0).1 r1
    rw [runAll_cons]
    refine ⟨i1, ?_, ?_, ?_⟩
    · rw [List.map_append, List.nodup_append]
      refine ⟨r2, i2, ?_⟩
      intro v hv hv'
      obtain ⟨n, hn, hnu⟩ := List.mem_map.mp hv
      obtain ⟨m, hm, hmu⟩ := List.mem_map.mp hv'
      have hrec : is_processed (run_monitor e db0).1 v = true :=
        hnu ▸ (r4 n hn).1
      have hno : is_processed (run_monitor e db0).1 v = false :=
        hmu ▸ (i4 m hm).2
      rw [hrec] at hno
      exact Bool.noConfusion hno
    · exact fun u hu => i3 u (r3 u hu)
    · intro n hn
      rcases List.mem_append.mp hn with hfst | hsnd
      · exact ⟨i3 _ (r4 n hfst).1, (r4 n hfst).2⟩
      · refine ⟨(i4 n hsnd).1, ?_⟩
        cases hb : is_processed db0 n.url with
        | false => rfl
        | true =>
          have := r3 _ hb
          rw [(i4 n hsnd).2] at this
          exact Bool.noConfusion this

lemma processLink_found_of_fresh (env : RunEnv) (st : RunState) (l : Link)
    (hq : qualifies l = true)
    (hc : st.found.contains (resolveUrl l.href) = false) :
    (processLink env st l).found = st.found ++ [resolveUrl l.href] := by
  rw [processLink_eq]
  simp only [hq, if_true, hc, Bool.false_eq_true, if_false]
  split
  · rfl
  · exact classifyNew_found env st (resolveUrl l.href) l.text

lemma foldl_found_eq (env : RunEnv) (links : List Link) (st : RunState) :
    (links.foldl (processLink env) st).found =
      st.found ++ firstWins st.found
        ((links.filter qualifies).map (fun l => resolveUrl l.href)) := by
  induction links generalizing st with
  | nil => simp [firstWins]
  | cons l ls ih =>
    rw [List.foldl_cons]
    cases hq : qualifies l with
    | false =>
      have hstep : processLink env st l = st := by
        rw [processLink_eq]
        simp [hq]
      rw [hstep, List.filter_cons_of_neg (by simp [hq]), ih]
    | true =>
      rw [List.filter_cons_of_pos (by simp [hq]), List.map_cons]
      cases hc : st.found.contains (resolveUrl l.href) with
      | true =>
        have hm : resolveUrl l.href ∈ st.found := (contains_iff_mem _ _).mp hc
        have hstep : processLink env st l = st := by
          rw [processLink_eq]
          simp [hq, hm]
        rw [hstep, ih]
        simp [firstWins, hm]
      | false =>
        have hm : resolveUrl l.href ∉ st.found := fun hmem => by
          rw [(contains_iff_mem _ _).mpr hmem] at hc
          exact Bool.noConfusion hc
        have hstep := processLink_found_of_fresh env st l hq hc
        have hfw : firstWins st.found (resolveUrl l.href ::
            (ls.filter qualifies).map (fun l => resolveUrl l.href)) =
            resolveUrl l.href :: firstWins (st.found ++ [resolveUrl l.href])
              ((ls.filter qualifies).map (fun l => resolveUrl l.href)) := by
          simp [firstWins, hm]
        rw [ih, hstep, hfw]
        simp

lemma run_monitor_db_mono (env : RunEnv) (db : List SeenRecord) (u : String)
    (h : is_processed db u = true) :
    is_processed (run_monitor env db).1 u = true := by
  cases hl : env.listing with
  | none => simpa [run_monitor, hl] using h
  | some links =>
    simp only [run_monitor, hl, runListing]
    exact foldl_db_mono env links ⟨[], db, []⟩ u h

lemma runAll_db_mono (envs : List RunEnv) (db : List SeenRecord) (u : String)
    (h : is_processed db u = true) :
    is_processed (runAll envs db).1 u = true := by
  induction envs generalizing db with
  | nil => exact h
  | cons e es ih =>
    rw [runAll_cons]
    exact ih _ (run_monitor_db_mono e db u h)

lemma run_monitor_all_processed (env : RunEnv) (db : List SeenRecord)
    (links : List Link) (hl : env.listing = some links) :
    ∀ l ∈ links, qualifies l = true →
      is_processed (run_monitor env db).1 (resolveUrl l.href) = true := by
  intro l hml hq
  simp only [run_monitor, hl, runListing]
  refine foldl_all_processed env links ⟨[], db, []⟩ ?_ l hml hq
  intro u hu
  simp [List.contains] at hu

lemma runAll_all_processed (envs : List RunEnv) (db0 : List SeenRecord) :
    ∀ e ∈ envs, ∀ links : List Link, e.listing = some links →
      ∀ l ∈ links, qualifies l = true →
        is_processed (runAll envs db0).1 (resolveUrl l.href) = true := by
  induction envs generalizing db0 with
  | nil => intro e he; cases he
  | cons e' es ih =>
    intro e he links hl l hml hq
    rw [runAll_cons]
    rcases List.mem_cons.mp he with he | he
    · subst he
      exact runAll_db_mono es _ _
        (run_monitor_all_processed e db0 links hl l hml hq)
    · exact ih (run_monitor e' db0).1 e he links hl l hml hq

/-! ### Claim theorems -/

/-- C1: Idempotence of a run: one invocation of `run_monitor` classifies and
persists every candidate discovered on the listing page, so a second
invocation of `run_monitor` against the same unchanged listing sends zero
notifications (every candidate URL is found in the seen-set and skipped). -/
theorem esdm_C1_second_run_silent (env : RunEnv) (db0 : List SeenRecord) :
    (run_monitor env (run_monitor env db0).1).2 = [] := by
  cases h : env.listing with
  | none => simp [run_monitor, h]
  | some links =>
    simp only [run_monitor, h, runListing]
    have hinv : FoundSeen ⟨[], db0, []⟩ := by
      intro u hu
      simp [List.contains] at hu
    have hall := foldl_all_processed env links ⟨[], db0, []⟩ hinv
    have hinv2 : ∀ l ∈ links, qualifies l = true →
        is_processed
          ((links.foldl (processLink env) ⟨[], db0, []⟩).db)
          (resolveUrl l.href) = true := hall
    exact (foldl_no_new env links
      ⟨[], (links.foldl (processLink env) ⟨[], db0, []⟩).db, []⟩ hinv2).2

/-- C2: across any sequence of runs started from a seen-set with no duplicate
URL rows, the final seen-set still has no duplicate rows for the same URL
(the insert ignores a duplicate key); every candidate discovered during any
run — matched or not — has its resolved URL recorded in the final seen-set
exactly once, so re-runs never re-process it; every notified candidate is
recorded exactly once; and the notifications of the whole lifetime name
pairwise distinct URLs, so a given URL is notified at most once. -/
theorem esdm_C2_dedupe_invariants (envs : List RunEnv) (db0 : List SeenRecord)
    (h : (db0.map SeenRecord.url).Nodup) :
    ((runAll envs db0).1.map SeenRecord.url).Nodup ∧
    ((runAll envs db0).2.map Alert.url).Nodup ∧
    (∀ n ∈ (runAll envs db0).2,
      ((runAll envs db0).1.map SeenRecord.url).count n.url = 1) ∧
    (∀ e ∈ envs, ∀ links : List Link, e.listing = some links →
      ∀ l ∈ links, qualifies l = true →
        ((runAll envs db0).1.map SeenRecord.url).count (resolveUrl l.href)
          = 1) := by
  obtain ⟨g1, g2, g3, g4⟩ := runAll_good envs db0 h
  refine ⟨g1, g2, fun n hn =>
    List.count_eq_one_of_mem g1 ((processed_iff_mem _ _).mp (g4 n hn).1),
    fun e he links hl l hml hq =>
    List.count_eq_one_of_mem g1 ((processed_iff_mem _ _).mp
      (runAll_all_processed envs db0 e he links hl l hml hq))⟩

theorem esdm_C2_witness :
    (([] : List SeenRecord).map SeenRecord.url).Nodup ∧
    (((runAll [witnessEnv] []).1.map SeenRecord.url).Nodup ∧
      ((runAll [witnessEnv] []).2.map Alert.url).Nodup ∧
      (∀ n ∈ (runAll [witnessEnv] []).2,
        ((runAll [witnessEnv] []).1.map SeenRecord.url).count n.url = 1) ∧
      (∀ e ∈ [witnessEnv], ∀ links : List Link, e.listing = some links →
        ∀ l ∈ links, qualifies l = true →
          ((runAll [witnessEnv] []).1.map SeenRecord.url).count
            (resolveUrl l.href) = 1)) :=
  ⟨by simp, esdm_C2_dedupe_invariants [witnessEnv] [] (by simp)⟩

/-- C3: keyword matching is a case-insensitive substring match returning the
matched keywords in keyword-configuration order (the result is a sublist of
the configured list): phase 1 filters the keywords against the lower-cased
title, phase 2 filters them against the lower-cased body exactly when phase 1
returned no match; keyword `nikel` matches title `Kebijakan NIKEL Baru`. -/
theorem esdm_C3_keyword_match :
    (∀ (kws : List String) (t b : String),
      (keywordMatch kws t b).Sublist kws) ∧
    (∀ (kws : List String) (t b : String),
      kws.filter (fun k => substrOf k (lowerStr t)) ≠ [] →
        keywordMatch kws t b = kws.filter (fun k => substrOf k (lowerStr t))) ∧
    (∀ (kws : List String) (t b : String),
      kws.filter (fun k => substrOf k (lowerStr t)) = [] →
        keywordMatch kws t b = kws.filter (fun k => substrOf k (lowerStr b))) ∧
    keywordMatch (loadKeywords ["rkab", "nikel", "kobalt"])
      "Kebijakan NIKEL Baru" "" = ["nikel"] := by
  refine ⟨?_, ?_, ?_, by decide⟩
  · intro kws t b
    simp only [keywordMatch]
    split
    · exact List.filter_sublist kws
    · exact List.filter_sublist kws
  · intro kws t b hm
    have hE : (kws.filter (fun k => substrOf k (lowerStr t))).isEmpty = false := by
      cases hE : (kws.filter (fun k => substrOf k (lowerStr t))).isEmpty
      · rfl
      · exact absurd (List.isEmpty_iff.mp hE) hm
    simp [keywordMatch, hE]
  · intro kws t b hm
    simp [keywordMatch, hm]

theorem esdm_C3_witness :
    (loadKeywords ["rkab", "nikel", "kobalt"]).filter
        (fun k => substrOf k (lowerStr "Kebijakan NIKEL Baru")) ≠ [] ∧
    keywordMatch (loadKeywords ["rkab", "nikel", "kobalt"])
        "Kebijakan NIKEL Baru" "teks badan" =
      (loadKeywords ["rkab", "nikel", "kobalt"]).filter
        (fun k => substrOf k (lowerStr "Kebijakan NIKEL Baru")) :=
  ⟨by decide, esdm_C3_keyword_match.2.1 _ "Kebijakan NIKEL Baru" "teks badan"
    (by decide)⟩

/-- C4: title-match short-circuits body-match: when the title matches at
least one configured keyword, the matched-keyword list (and hence the match
decision) is the same for any two body texts. -/
theorem esdm_C4_title_shortcircuit (kws : List String) (t b₁ b₂ : String)
    (h : kws.filter (fun k => substrOf k (lowerStr t)) ≠ []) :
    keywordMatch kws t b₁ = keywordMatch kws t b₂ := by
  have hE : (kws.filter (fun k => substrOf k (lowerStr t))).isEmpty = false := by
    cases hE : (kws.filter (fun k => substrOf k (lowerStr t))).isEmpty
    · rfl
    · exact absurd (List.isEmpty_iff.mp hE) h
  simp [keywordMatch, hE]

theorem esdm_C4_witness :
    (["nikel"].filter (fun k => substrOf k (lowerStr "Kebijakan NIKEL Baru"))
      ≠ []) ∧
    keywordMatch ["nikel"] "Kebijakan NIKEL Baru" "" =
      keywordMatch ["nikel"] "Kebijakan NIKEL Baru" "isi lain sama sekali" :=
  ⟨by decide, esdm_C4_title_shortcircuit ["nikel"] "Kebijakan NIKEL Baru" ""
    "isi lain sama sekali" (by decide)⟩

/-- C5: date extraction resolves in order: a match of the labelled pattern in
the page's plain text wins; else the same pattern is applied to the
`og:description` content; else the literal `Unknown` is returned. Text
containing `Tanggal : 19 Desember 2024` before a newline yields
`19 Desember 2024`, and absence of both the label and `og:description`
yields `Unknown`. -/
theorem esdm_C5_date_resolution :
    (∀ (d : Detail) (s : String),
      findTanggal d.textRaw = some s → extractDate d = s) ∧
    (∀ (d : Detail) (c s : String), findTanggal d.textRaw = none →
      d.ogDesc = some c → findTanggal c = some s → extractDate d = s) ∧
    (∀ d : Detail, findTanggal d.textRaw = none →
      (∀ c, d.ogDesc = some c → findTanggal c = none) →
      extractDate d = "Unknown") ∧
    findTanggal "Tanggal : 19 Desember 2024\n" = some "19 Desember 2024" ∧
    extractDate ⟨"tidak ada label tanggal di sini", none⟩ = "Unknown" := by
  refine ⟨?_, ?_, ?_, by decide, by decide⟩
  · intro d s h
    simp [extractDate, h]
  · intro d c s h1 h2 h3
    simp [extractDate, h1, h2, h3]
  · intro d h1 h2
    cases hog : d.ogDesc with
    | none => simp [extractDate, h1, hog]
    | some c => simp [extractDate, h1, hog, h2 c hog]

theorem esdm_C5_witness :
    findTanggal (Detail.mk "Tanggal : 19 Desember 2024\n" none).textRaw =
      some "19 Desember 2024" ∧
    extractDate (Detail.mk "Tanggal : 19 Desember 2024\n" none) =
      "19 Desember 2024" :=
  ⟨by decide, esdm_C5_date_resolution.1
    (Detail.mk "Tanggal : 19 Desember 2024\n" none) "19 Desember 2024"
    (by decide)⟩

/-- C6: a link qualifies as a candidate iff its href contains the literal
substring `arsip-berita` and its visible text is longer than 10 characters;
an href beginning with `/` is resolved against the fixed site origin while
any other href passes through unchanged; candidates are deduplicated by
resolved URL within the run with the first occurrence winning, and two links
resolving to the same URL yield one candidate processed once (one seen-set
row). -/
theorem esdm_C6_candidate_filter :
    (∀ l : Link, qualifies l = true ↔
      (substrOf "arsip-berita" l.href = true ∧ l.text.length > 10)) ∧
    (∀ h : String, strStartsWith h "/" = true →
      resolveUrl h = "https://www.esdm.go.id" ++ h) ∧
    (∀ h : String, strStartsWith h "/" = false → resolveUrl h = h) ∧
    (∀ (env : RunEnv) (links : List Link) (db : List SeenRecord),
      (runListing env db links).found =
        firstWins [] ((links.filter qualifies).map (fun l => resolveUrl l.href))) ∧
    (run_monitor witnessEnvDup []).1.length = 1 := by
  refine ⟨?_, ?_, ?_, ?_, by decide⟩
  · intro l
    simp [qualifies]
  · intro h hh
    simp [resolveUrl, hh]
  · intro h hh
    simp [resolveUrl, hh]
  · intro env links db
    have := foldl_found_eq env links ⟨[], db, []⟩
    simpa [runListing] using this

theorem esdm_C6_witness :
    strStartsWith "/id/media-center/arsip-berita/123" "/" = true ∧
    resolveUrl "/id/media-center/arsip-berita/123" =
      "https://www.esdm.go.id" ++ "/id/media-center/arsip-berita/123" :=
  ⟨by decide, esdm_C6_candidate_filter.2.1 "/id/media-center/arsip-berita/123"
    (by decide)⟩

/-- C7 counterexample: with no API credential configured, `translate_title`
does not append the marker ` (untranslated)` claimed by the specification;
the literal marker in the code is ` (未配置翻译)`. -/
theorem esdm_C7_counterexample :
    translate_title ⟨none, none⟩ "Harga nikel naik" ≠
      "Harga nikel naik" ++ " (untranslated)" := by
  decide

/-- C7 (amended): the translation function is total and never raises: when no
API credential is configured (absent or empty) it returns the input text with
the literal marker ` (未配置翻译)` appended, and when the translation request
fails (transport error or non-200 response) it returns the original text
unchanged. -/
theorem esdm_C7_translate_fallback :
    (∀ (r : Option String) (t : String),
      translate_title ⟨none, r⟩ t = t ++ " (未配置翻译)") ∧
    (∀ (r : Option String) (t : String),
      translate_title ⟨some "", r⟩ t = t ++ " (未配置翻译)") ∧
    (∀ (k t : String), k ≠ "" → translate_title ⟨some k, none⟩ t = t) := by
  refine ⟨fun r t => rfl, fun r t => by simp [translate_title],
    fun k t hk => by simp [translate_title, hk]⟩

theorem esdm_C7_witness :
    ("APIKEY" : String) ≠ "" ∧
    translate_title ⟨some "APIKEY", none⟩ "Judul asli" = "Judul asli" :=
  ⟨by decide, esdm_C7_translate_fallback.2.2 "APIKEY" "Judul asli" (by decide)⟩

/-- C8: if a webhook secret is configured and starts with the signing-key
prefix `SEC`, an HMAC-SHA256 signature over the string made of the millisecond
timestamp, a newline and the secret is base64-encoded, URL-escaped and
appended as `timestamp` and `sign` query parameters to the webhook URL; a
secret lacking the prefix is instead appended as visible text in the message
body and the webhook URL is left unchanged. -/
theorem esdm_C8_secret_handling (env : DingEnv) (cn orig : String)
    (kws : List String) (date url w : String) (hw : env.webhook = some w) :
    (∀ s, env.secret = some s → strStartsWith s "SEC" = true →
      send_dingtalk env cn orig kws date url =
        some (w ++ "&timestamp=" ++ toString env.timestampMillis ++ "&sign=" ++
          quotePlus (b64encode (env.hmacSha256 s
            (toString env.timestampMillis ++ "\n" ++ s))),
          dingContent cn orig kws date url "")) ∧
    (∀ s, env.secret = some s → strStartsWith s "SEC" = false → s ≠ "" →
      send_dingtalk env cn orig kws date url =
        some (w, dingContent cn orig kws date url
          ("\n\n(Keyword: " ++ s ++ ")"))) := by
  constructor
  · intro s hs hsec
    have hne : ¬(s = "") := by
      intro he
      rw [he] at hsec
      exact absurd hsec (by decide)
    simp [send_dingtalk, hw, hs, hne, hsec, dingSign]
  · intro s hs hsec hne
    simp [send_dingtalk, hw, hs, hne, hsec]

theorem esdm_C8_witness :
    strStartsWith "SECxxxx" "SEC" = true ∧
    send_dingtalk witnessDingEnv "b" "c" ["nikel"] "d" "u" =
      some ("https://oapi.dingtalk.com/robot/send?access_token=tkn" ++
        "&timestamp=" ++ toString witnessDingEnv.timestampMillis ++ "&sign=" ++
        quotePlus (b64encode (witnessDingEnv.hmacSha256 "SECxxxx"
          (toString witnessDingEnv.timestampMillis ++ "\n" ++ "SECxxxx"))),
        dingContent "b" "c" ["nikel"] "d" "u" "") :=
  ⟨by decide, (esdm_C8_secret_handling witnessDingEnv "b" "c" ["nikel"] "d" "u"
    "https://oapi.dingtalk.com/robot/send?access_token=tkn" rfl).1
    "SECxxxx" rfl (by decide)⟩

/-- C9: if the listing-page fetch returns nothing, the run ends early and
cleanly: the seen-set is returned unchanged (no record inserted) and no
notification is sent. Every other failure (detail fetch, parse, translation,
notification) is absorbed by the total model and never aborts the run. -/
theorem esdm_C9_listing_failure (env : RunEnv) (db : List SeenRecord)
    (h : env.listing = none) : run_monitor env db = (db, []) := by
  simp [run_monitor, h]

theorem esdm_C9_witness :
    witnessEnvNone.listing = none ∧ run_monitor witnessEnvNone [] = ([], []) :=
  ⟨rfl, esdm_C9_listing_failure witnessEnvNone [] rfl⟩

/-- C10: when the detail page text contains the `Tanggal` label with a colon
but the captured text before the line break is empty or all whitespace, the
recorded date is the empty string after trimming, not `Unknown`. -/
theorem esdm_C10_empty_capture :
    extractDate ⟨"Tanggal :\n", none⟩ = "" ∧
    extractDate ⟨"Judul Berita\nTanggal :   \n", none⟩ = "" ∧
    extractDate ⟨"Tanggal :\n", none⟩ ≠ "Unknown" := by
  refine ⟨by decide, by decide, by decide⟩
